import Mathlib

/-!
Shallow embedding of the core of `constellation-rust`, a multi-threaded
activity scheduler, together with theorems checking its natural-language
specification against the code.

Embedded source files:
* `src/implementation/event_queue.rs` (`EventQueue`)
* `src/implementation/activity_identifier.rs` (`ActivityIdentifier`, `PartialEq`, derived `Hash`)
* `src/implementation/communication/node_handler.rs` (`NodeHandler`)
* `src/implementation/constellation_identifier.rs` (`generate_activity_id`)
* `src/implementation/constellation_files/executor_thread.rs` (`run_activity`, `process`, `queues_empty`)
* `src/implementation/constellation_files/thread_helper.rs` (`MultiThreadHelper`)
* `src/implementation/constellation_files/multi_threaded_constellation.rs` (facade)

Rust `HashMap`s are embedded as association lists whose key equality is the
`PartialEq` implementation of `ActivityIdentifier`; `Vec` is `List`; shared
`Arc<Mutex<..>>` state is passed explicitly; a `panic!`/`unwrap()`-on-`None`
is an explicit `panicked` outcome.
-/

namespace ConstellationRust

/-- `NodeHandler` (node_handler.rs): node name and node id.
Rust derives `Hash` for both fields. -/
structure NodeHandler where
  node_name : String
  node_id : Nat
deriving DecidableEq, Repr, Inhabited

/-- `ActivityIdentifier` (activity_identifier.rs): the triple stored for an
activity, with `node_info` a `NodeHandler`. -/
structure ActivityIdentifier where
  constellation_id : Int
  node_info : NodeHandler
  activity_id : Nat
deriving DecidableEq, Repr, Inhabited

/-- `impl PartialEq for ActivityIdentifier` (activity_identifier.rs lines 65-71):
compares `activity_id`, `node_info.node_id` and `constellation_id`, in that
order, and nothing else (`node_name` is ignored). -/
def aidEq (a b : ActivityIdentifier) : Bool :=
  (a.activity_id == b.activity_id)
    && (a.node_info.node_id == b.node_info.node_id)
    && (a.constellation_id == b.constellation_id)

/-- The field tuple fed to the hasher by `#[derive(Hash)]` on
`ActivityIdentifier`: it hashes `constellation_id`, the whole `node_info`
(`node_name` and `node_id`, both hashed by `NodeHandler`'s derived `Hash`)
and `activity_id`. Two values have equal hash outputs exactly when a
deterministic hasher is fed equal field tuples. -/
def hashFields (a : ActivityIdentifier) : Int × String × Nat × Nat :=
  (a.constellation_id, a.node_info.node_name, a.node_info.node_id, a.activity_id)

/-- `Event` (event.rs): source, destination, opaque payload (represented by a
token; the scheduler never inspects payload contents). -/
structure Event where
  src : ActivityIdentifier
  dst : ActivityIdentifier
  payload : Nat
deriving DecidableEq, Repr, Inhabited

/-! ### aidEq is an equivalence -/

theorem aidEq_refl (a : ActivityIdentifier) : aidEq a a = true := by
  simp [aidEq]

theorem aidEq_symm {a b : ActivityIdentifier} (h : aidEq a b = true) :
    aidEq b a = true := by
  simp only [aidEq, Bool.and_eq_true, beq_iff_eq] at *
  exact ⟨⟨h.1.1.symm, h.1.2.symm⟩, h.2.symm⟩

theorem aidEq_trans {a b c : ActivityIdentifier} (h1 : aidEq a b = true)
    (h2 : aidEq b c = true) : aidEq a c = true := by
  simp only [aidEq, Bool.and_eq_true, beq_iff_eq] at *
  exact ⟨⟨h1.1.1.trans h2.1.1, h1.1.2.trans h2.1.2⟩, h1.2.trans h2.2⟩

/-! ## EventQueue (event_queue.rs)

`EventQueue { data: HashMap<ActivityIdentifier, Vec<Box<Event>>> }`, embedded
as an association list keyed up to `aidEq`. -/

/-- One map entry: destination key and its `Vec<Box<Event>>`. -/
abbrev EQEntry := ActivityIdentifier × List Event

/-- `EventQueue::insert`: `self.data.entry(key).or_insert_with(Vec::new).push(event)` —
append `event` to the vector at `key`, creating the entry when absent. -/
def insertAux : List EQEntry → ActivityIdentifier → Event → List EQEntry
  | [], k, e => [(k, [e])]
  | p :: t, k, e =>
    if aidEq p.1 k then (p.1, p.2 ++ [e]) :: t else p :: insertAux t k e

/-- `EventQueue::remove`: `and_modify(|e| event = e.pop())` pops from the BACK
of the `Vec` (`Vec::pop`), then the entry is removed when it became empty. -/
def removeAux : List EQEntry → ActivityIdentifier → Option Event × List EQEntry
  | [], _ => (none, [])
  | p :: t, k =>
    if aidEq p.1 k then
      let ev := p.2.getLast?
      let v := p.2.dropLast
      if v.isEmpty then (ev, t) else (ev, (p.1, v) :: t)
    else
      let r := removeAux t k
      (r.1, p :: r.2)

/-- `EventQueue` (event_queue.rs): wrapper around the destination → events map. -/
structure EventQueue where
  data : List EQEntry
deriving Repr, Inhabited

/-- `EventQueue::new()` -/
def EventQueue.new : EventQueue := ⟨[]⟩

/-- `EventQueue::insert` (event_queue.rs lines 28-30). -/
def EventQueue.insert (q : EventQueue) (key : ActivityIdentifier) (event : Event) :
    EventQueue := ⟨insertAux q.data key event⟩

/-- `EventQueue::remove` (event_queue.rs lines 34-44): returns the popped event
(from the back of the vector) and the updated queue. -/
def EventQueue.remove (q : EventQueue) (key : ActivityIdentifier) :
    Option Event × EventQueue :=
  let r := removeAux q.data key
  (r.1, ⟨r.2⟩)

/-- `HashMap::contains_key` with `ActivityIdentifier` keys (used by the event
queue and by the runnable / suspended activity maps alike). -/
def containsKeyMap {α : Type} (m : List (ActivityIdentifier × α))
    (key : ActivityIdentifier) : Bool :=
  m.any (fun p => aidEq p.1 key)

/-- `EventQueue::contains_key` (event_queue.rs lines 46-48). -/
def EventQueue.contains_key (q : EventQueue) (key : ActivityIdentifier) : Bool :=
  containsKeyMap q.data key

/-- `EventQueue::is_empty`. -/
def EventQueue.is_empty (q : EventQueue) : Bool :=
  q.data.isEmpty

/-- `EventQueue::keys`: snapshot of the destinations present in the map. -/
def EventQueue.keysList (q : EventQueue) : List ActivityIdentifier :=
  q.data.map Prod.fst

/-- Events stored for a destination in an entry list (first matching map
entry, `[]` when absent). -/
def eventsForL (l : List EQEntry) (key : ActivityIdentifier) : List Event :=
  match l.find? (fun p => aidEq p.1 key) with
  | some p => p.2
  | none => []

/-- The events currently stored for a destination (first matching map entry,
`[]` when absent). -/
def EventQueue.eventsFor (q : EventQueue) (key : ActivityIdentifier) : List Event :=
  eventsForL q.data key

/-- Total number of events stored in the queue, over all destinations. -/
def EventQueue.totalEvents (q : EventQueue) : Nat :=
  (q.data.map (fun p => p.2.length)).sum

/-- Every entry of the map holds a non-empty event vector. -/
def EventQueue.entriesNonEmpty (q : EventQueue) : Bool :=
  q.data.all (fun p => !p.2.isEmpty)

/-- The map keys are pairwise distinct modulo `aidEq` (HashMap key uniqueness). -/
def uniqKeysB : List EQEntry → Bool
  | [] => true
  | p :: t => !(t.any (fun p2 => aidEq p2.1 p.1)) && uniqKeysB t

/-- Every event is stored under a key `aidEq`-equal to its own destination
(the code only ever inserts with `key = event.get_dst()`). -/
def EventQueue.keyedByDst (q : EventQueue) : Bool :=
  q.data.all (fun p => p.2.all (fun e => aidEq p.1 e.dst))

/-! ### Lemmas about the EventQueue operations -/

theorem aidEq_congr {k d : ActivityIdentifier} (h : aidEq k d = true)
    (p : ActivityIdentifier) : aidEq p k = aidEq p d := by
  cases hp : aidEq p k
  · cases hd : aidEq p d
    · rfl
    · exact absurd (aidEq_trans hd (aidEq_symm h)) (by simp [hp])
  · exact (aidEq_trans hp h).symm

theorem containsKeyMap_congr {α : Type} {k d : ActivityIdentifier}
    (h : aidEq k d = true) (m : List (ActivityIdentifier × α)) :
    containsKeyMap m k = containsKeyMap m d := by
  unfold containsKeyMap
  induction m with
  | nil => rfl
  | cons p t ih => simp [List.any_cons, ih, aidEq_congr h p.1]

theorem eventsForL_congr {k d : ActivityIdentifier} (h : aidEq k d = true)
    (l : List EQEntry) : eventsForL l k = eventsForL l d := by
  induction l with
  | nil => rfl
  | cons p t ih =>
    simp only [eventsForL, List.find?_cons] at *
    rw [aidEq_congr h p.1]
    cases aidEq p.1 d
    · exact ih
    · rfl

theorem eventsForL_nil (d : ActivityIdentifier) : eventsForL [] d = [] := rfl

theorem eventsForL_cons (p : EQEntry) (t : List EQEntry) (d : ActivityIdentifier) :
    eventsForL (p :: t) d = if aidEq p.1 d then p.2 else eventsForL t d := by
  unfold eventsForL
  rw [List.find?_cons]
  cases aidEq p.1 d <;> simp

theorem eventsForL_eq_nil_of_not_contains {l : List EQEntry}
    {d : ActivityIdentifier} (h : containsKeyMap l d = false) :
    eventsForL l d = [] := by
  induction l with
  | nil => rfl
  | cons p t ih =>
    simp only [containsKeyMap, List.any_cons, Bool.or_eq_false_iff] at h
    rw [eventsForL_cons, h.1]
    simp only [if_false, Bool.false_eq_true, ite_false]
    exact ih (by simpa [containsKeyMap] using h.2)

theorem eventsForL_insert_eq {k d : ActivityIdentifier} (h : aidEq k d = true)
    (l : List EQEntry) (e : Event) :
    eventsForL (insertAux l k e) d = eventsForL l d ++ [e] := by
  induction l with
  | nil => simp [insertAux, eventsForL_cons, eventsForL_nil, h]
  | cons p t ih =>
    cases hp : aidEq p.1 k with
    | true =>
      have hd : aidEq p.1 d = true := (aidEq_congr h p.1) ▸ hp
      simp [insertAux, hp, eventsForL_cons, hd]
    | false =>
      have hd : aidEq p.1 d = false := (aidEq_congr h p.1) ▸ hp
      simp [insertAux, hp, eventsForL_cons, hd, ih]

theorem eventsForL_insert_ne {k d : ActivityIdentifier} (h : aidEq k d = false)
    (l : List EQEntry) (e : Event) :
    eventsForL (insertAux l k e) d = eventsForL l d := by
  induction l with
  | nil => simp [insertAux, eventsForL_cons, eventsForL_nil, h]
  | cons p t ih =>
    cases hp : aidEq p.1 k with
    | true =>
      have hd : aidEq p.1 d = false := by
        cases hpd : aidEq p.1 d
        · rfl
        · exact absurd (aidEq_trans (aidEq_symm hp) hpd) (by simp [h])
      simp [insertAux, hp, eventsForL_cons, hd]
    | false =>
      simp only [insertAux, hp, Bool.false_eq_true, ite_false]
      rw [eventsForL_cons, eventsForL_cons]
      cases hpd : aidEq p.1 d <;> simp [ih]

theorem removeAux_fst (l : List EQEntry) (k : ActivityIdentifier) :
    (removeAux l k).1 = (eventsForL l k).getLast? := by
  induction l with
  | nil => rfl
  | cons p t ih =>
    cases hp : aidEq p.1 k with
    | true =>
      rw [eventsForL_cons, hp]
      by_cases hv : p.2.dropLast.isEmpty = true <;> simp [removeAux, hp, hv]
    | false =>
      rw [eventsForL_cons, hp]
      simp [removeAux, hp, ih]

theorem eventsForL_remove_ne {k d : ActivityIdentifier} (h : aidEq k d = false)
    (l : List EQEntry) :
    eventsForL (removeAux l k).2 d = eventsForL l d := by
  induction l with
  | nil => rfl
  | cons p t ih =>
    cases hp : aidEq p.1 k with
    | true =>
      have hd : aidEq p.1 d = false := by
        cases hpd : aidEq p.1 d
        · rfl
        · exact absurd (aidEq_trans (aidEq_symm hp) hpd) (by simp [h])
      by_cases hv : p.2.dropLast.isEmpty = true <;>
        simp [removeAux, hp, hv, eventsForL_cons, hd]
    | false =>
      simp only [removeAux, hp, Bool.false_eq_true, ite_false]
      rw [eventsForL_cons, eventsForL_cons]
      cases hpd : aidEq p.1 d <;> simp [ih]

theorem eventsForL_remove_eq {k d : ActivityIdentifier}
    (h : aidEq k d = true) {l : List EQEntry} (hu : uniqKeysB l = true) :
    eventsForL (removeAux l k).2 d = (eventsForL l d).dropLast := by
  induction l with
  | nil => rfl
  | cons p t ih =>
    simp only [uniqKeysB, Bool.and_eq_true, Bool.not_eq_true'] at hu
    cases hp : aidEq p.1 k with
    | true =>
      have hd : aidEq p.1 d = true := (aidEq_congr h p.1) ▸ hp
      have htd : containsKeyMap t d = false := by
        cases hc : containsKeyMap t d
        · rfl
        · exfalso
          simp only [containsKeyMap, List.any_eq_true] at hc
          obtain ⟨p2, hp2, hpd2⟩ := hc
          have h1 : aidEq p2.1 p.1 = true :=
            aidEq_trans hpd2 (aidEq_trans (aidEq_symm h) (aidEq_symm hp))
          have h2 : t.any (fun p2 => aidEq p2.1 p.1) = true :=
            List.any_eq_true.mpr ⟨p2, hp2, h1⟩
          simp [h2] at hu
      by_cases hv : p.2.dropLast.isEmpty = true
      · have hvnil : p.2.dropLast = [] := by simpa [List.isEmpty_iff] using hv
        simp [removeAux, hp, hv, eventsForL_cons, hd, hvnil,
          eventsForL_eq_nil_of_not_contains htd]
      · simp [removeAux, hp, hv, eventsForL_cons, hd]
    | false =>
      have hd : aidEq p.1 d = false := (aidEq_congr h p.1) ▸ hp
      simp only [removeAux, hp, Bool.false_eq_true, ite_false]
      rw [eventsForL_cons, hd]
      simp only [Bool.false_eq_true, ite_false]
      rw [eventsForL_cons, hd]
      simp only [Bool.false_eq_true, ite_false]
      exact ih hu.2

theorem containsKeyMap_insertAux (l : List EQEntry) (k : ActivityIdentifier)
    (e : Event) (j : ActivityIdentifier) :
    containsKeyMap (insertAux l k e) j = (containsKeyMap l j || aidEq k j) := by
  induction l with
  | nil => simp [insertAux, containsKeyMap]
  | cons p t ih =>
    cases hp : aidEq p.1 k with
    | true =>
      cases hkj : aidEq k j with
      | true =>
        have hpj : aidEq p.1 j = true := (aidEq_congr hkj p.1) ▸ hp
        simp [insertAux, hp, containsKeyMap, hpj]
      | false => simp [insertAux, hp, containsKeyMap]
    | false =>
      simp only [insertAux, hp, Bool.false_eq_true, ite_false]
      simp only [containsKeyMap, List.any_cons] at *
      rw [ih, Bool.or_assoc]

theorem uniq_insertAux {l : List EQEntry} (hu : uniqKeysB l = true)
    (k : ActivityIdentifier) (e : Event) :
    uniqKeysB (insertAux l k e) = true := by
  induction l with
  | nil => simp [insertAux, uniqKeysB, containsKeyMap]
  | cons p t ih =>
    simp only [uniqKeysB, Bool.and_eq_true, Bool.not_eq_true'] at hu
    cases hp : aidEq p.1 k with
    | true => simp [insertAux, hp, uniqKeysB, hu.1, hu.2]
    | false =>
      have hkp : aidEq k p.1 = false := by
        cases hkp : aidEq k p.1
        · rfl
        · exact absurd (aidEq_symm hkp) (by simp [hp])
      have hc : containsKeyMap (insertAux t k e) p.1 = false := by
        rw [containsKeyMap_insertAux]
        simp [hkp]
        exact hu.1
      simp only [insertAux, hp, Bool.false_eq_true, ite_false, uniqKeysB,
        Bool.and_eq_true, Bool.not_eq_true']
      exact ⟨hc, ih hu.2⟩

theorem containsKeyMap_removeAux_le {l : List EQEntry} {k j : ActivityIdentifier}
    (h : containsKeyMap (removeAux l k).2 j = true) :
    containsKeyMap l j = true := by
  induction l with
  | nil => simpa [removeAux] using h
  | cons p t ih =>
    cases hp : aidEq p.1 k with
    | true =>
      by_cases hv : p.2.dropLast.isEmpty = true
      · rw [removeAux] at h
        simp only [hp, if_pos rfl, hv, ite_true] at h
        simp [containsKeyMap, List.any_cons]
        right
        simpa [containsKeyMap] using h
      · rw [removeAux] at h
        simp only [hp, if_pos rfl, hv, ite_false] at h
        simpa [containsKeyMap, List.any_cons] using
          (by simpa [containsKeyMap, List.any_cons] using h :
            aidEq p.1 j = true ∨ containsKeyMap t j = true)
    | false =>
      rw [removeAux] at h
      simp only [hp, Bool.false_eq_true, ite_false] at h
      simp only [containsKeyMap, List.any_cons, Bool.or_eq_true] at h ⊢
      rcases h with h | h
      · exact Or.inl h
      · exact Or.inr (ih (by simpa [containsKeyMap] using h))

theorem uniq_removeAux {l : List EQEntry} (hu : uniqKeysB l = true)
    (k : ActivityIdentifier) :
    uniqKeysB (removeAux l k).2 = true := by
  induction l with
  | nil => simpa [removeAux]
  | cons p t ih =>
    simp only [uniqKeysB, Bool.and_eq_true, Bool.not_eq_true'] at hu
    cases hp : aidEq p.1 k with
    | true =>
      by_cases hv : p.2.dropLast.isEmpty = true
      · simp only [removeAux, hp, if_pos rfl, hv, ite_true]
        exact hu.2
      · simp only [removeAux, hp, if_pos rfl, hv, ite_false, uniqKeysB,
          Bool.and_eq_true, Bool.not_eq_true']
        exact hu
    | false =>
      have hc : containsKeyMap (removeAux t k).2 p.1 = false := by
        cases hcc : containsKeyMap (removeAux t k).2 p.1
        · rfl
        · exact absurd (containsKeyMap_removeAux_le hcc) (by simp [containsKeyMap, hu.1])
      simp only [removeAux, hp, Bool.false_eq_true, ite_false, uniqKeysB,
        Bool.and_eq_true, Bool.not_eq_true']
      exact ⟨by simpa [containsKeyMap] using hc, ih hu.2⟩

/-- All entries of the map hold a non-empty event vector (list level). -/
def entriesNonEmptyL (l : List EQEntry) : Bool :=
  l.all (fun p => !p.2.isEmpty)

theorem nonEmpty_insertAux {l : List EQEntry} (h : entriesNonEmptyL l = true)
    (k : ActivityIdentifier) (e : Event) :
    entriesNonEmptyL (insertAux l k e) = true := by
  induction l with
  | nil => simp [insertAux, entriesNonEmptyL]
  | cons p t ih =>
    simp only [entriesNonEmptyL, List.all_cons, Bool.and_eq_true] at h
    cases hp : aidEq p.1 k with
    | true => simp [insertAux, hp, entriesNonEmptyL, h.2]
    | false =>
      simp only [insertAux, hp, Bool.false_eq_true, ite_false, entriesNonEmptyL,
        List.all_cons, Bool.and_eq_true]
      exact ⟨h.1, ih h.2⟩

theorem nonEmpty_removeAux {l : List EQEntry} (h : entriesNonEmptyL l = true)
    (k : ActivityIdentifier) :
    entriesNonEmptyL (removeAux l k).2 = true := by
  induction l with
  | nil => simpa [removeAux]
  | cons p t ih =>
    simp only [entriesNonEmptyL, List.all_cons, Bool.and_eq_true] at h
    cases hp : aidEq p.1 k with
    | true =>
      by_cases hv : p.2.dropLast.isEmpty = true
      · simp only [removeAux, hp, if_pos rfl, hv, ite_true]
        exact h.2
      · have hstep : (removeAux (p :: t) k).2 = (p.1, p.2.dropLast) :: t := by
          simp [removeAux, hp, hv]
        rw [hstep]
        simp only [entriesNonEmptyL, List.all_cons, Bool.and_eq_true]
        exact ⟨by simpa using hv, by simpa [entriesNonEmptyL] using h.2⟩
    | false =>
      simp only [removeAux, hp, Bool.false_eq_true, ite_false, entriesNonEmptyL,
        List.all_cons, Bool.and_eq_true]
      exact ⟨h.1, ih h.2⟩

theorem contains_iff_eventsFor_ne_nil {l : List EQEntry}
    (h : entriesNonEmptyL l = true) (d : ActivityIdentifier) :
    containsKeyMap l d = true ↔ eventsForL l d ≠ [] := by
  induction l with
  | nil => simp [containsKeyMap, eventsForL_nil]
  | cons p t ih =>
    simp only [entriesNonEmptyL, List.all_cons, Bool.and_eq_true] at h
    rw [eventsForL_cons]
    cases hp : aidEq p.1 d with
    | true =>
      simp only [containsKeyMap, List.any_cons, hp, Bool.true_or, ite_true]
      have : p.2 ≠ [] := by
        intro hnil
        simp [hnil] at h
      simp [this]
    | false =>
      simp only [containsKeyMap, List.any_cons, hp, Bool.false_or,
        Bool.false_eq_true, ite_false]
      exact ih h.2

theorem isEmpty_iff_total_zero {l : List EQEntry}
    (h : entriesNonEmptyL l = true) :
    l.isEmpty = true ↔ (l.map (fun p => p.2.length)).sum = 0 := by
  cases l with
  | nil => simp
  | cons p t =>
    simp only [entriesNonEmptyL, List.all_cons, Bool.and_eq_true] at h
    have : p.2 ≠ [] := by
      intro hnil
      simp [hnil] at h
    have hlen : 0 < p.2.length := List.length_pos.mpr this
    simp only [List.isEmpty, List.map_cons, List.sum_cons]
    constructor
    · intro hx
      exact absurd hx (by simp)
    · intro hx
      omega

theorem dropLast_append_getLast {l : List Event} {x : Event}
    (h : l.getLast? = some x) : l.dropLast ++ [x] = l := by
  induction l with
  | nil => simp at h
  | cons a t ih =>
    cases t with
    | nil => simp_all
    | cons b u =>
      have h' : (b :: u).getLast? = some x := by
        simpa [List.getLast?] using h
      simpa using ih h'

/-! ## Operation sequences on an EventQueue (for the reachable-state invariant) -/

/-- One client operation on an `EventQueue`: `insert key event` or
`remove key` (the returned event is dropped by this driver). -/
inductive QOp where
  | ins (k : ActivityIdentifier) (e : Event)
  | rem (k : ActivityIdentifier)
deriving Repr

/-- Apply one operation to a queue. -/
def applyOp (q : EventQueue) : QOp → EventQueue
  | .ins k e => q.insert k e
  | .rem k => (q.remove k).2

/-- Apply a sequence of operations, starting from the given queue. -/
def applyOps (ops : List QOp) (q : EventQueue) : EventQueue :=
  ops.foldl applyOp q

theorem applyOps_invariant (ops : List QOp) (q : EventQueue)
    (h : entriesNonEmptyL q.data = true ∧ uniqKeysB q.data = true) :
    entriesNonEmptyL (applyOps ops q).data = true
      ∧ uniqKeysB (applyOps ops q).data = true := by
  induction ops generalizing q with
  | nil => exact h
  | cons op t ih =>
    refine ih (applyOp q op) ?_
    cases op with
    | ins k e =>
      exact ⟨nonEmpty_insertAux h.1 k e, uniq_insertAux h.2 k e⟩
    | rem k =>
      exact ⟨nonEmpty_removeAux h.1 k, uniq_removeAux h.2 k⟩

/-! ## Concrete inputs used for counterexamples and witnesses -/

def nodeEx : NodeHandler := ⟨"node0", 0⟩

def dEx : ActivityIdentifier := ⟨0, nodeEx, 0⟩

def srcEx : ActivityIdentifier := ⟨0, nodeEx, 1⟩

def e1Ex : Event := ⟨srcEx, dEx, 1⟩

def e2Ex : Event := ⟨srcEx, dEx, 2⟩

/-! ## Claims about the event queue -/

/-- C1: the claim says `EventQueue::remove` returns the OLDEST event queued for
a destination (FIFO per destination). The code appends with `Vec::push` and
removes with `Vec::pop`, which pops the most recently pushed event: on the
failing input — two events `e1Ex` then `e2Ex` inserted for the same
destination — `remove` returns `e2Ex`, the newest, not `e1Ex`. -/
theorem C1_remove_returns_newest_not_oldest :
    (((EventQueue.new.insert dEx e1Ex).insert dEx e2Ex).remove dEx).1 = some e2Ex
      ∧ some e2Ex ≠ some e1Ex := by
  constructor
  · rfl
  · decide

/-- C1 (amended): `EventQueue::remove` returns the MOST RECENTLY inserted
event still queued for the destination — LIFO per destination, since `insert`
appends with `Vec::push` and `remove` pops with `Vec::pop`: immediately after
any `insert k e`, `remove k` returns `e`. -/
theorem C1_amended_remove_returns_newest (q : EventQueue)
    (k : ActivityIdentifier) (e : Event) :
    ((q.insert k e).remove k).1 = some e := by
  show (removeAux (insertAux q.data k e) k).1 = some e
  induction q.data with
  | nil => simp [insertAux, removeAux, aidEq_refl]
  | cons p t ih =>
    cases hp : aidEq p.1 k with
    | true =>
      simp only [insertAux, hp, ite_true, removeAux, List.getLast?_concat,
        List.dropLast_concat]
      split <;> rfl
    | false =>
      simp only [insertAux, hp, Bool.false_eq_true, ite_false, removeAux]
      simpa [hp] using ih

/-- C10: starting from `EventQueue::new`, after any sequence of `insert` and
`remove` operations every key present in the map holds at least one event,
`contains_key dst` is `true` exactly when at least one event is queued for
`dst`, and `is_empty` is `true` exactly when no events are queued at all. -/
theorem C10_no_empty_entries (ops : List QOp) :
    (applyOps ops EventQueue.new).entriesNonEmpty = true
      ∧ (∀ k, (applyOps ops EventQueue.new).contains_key k = true
          ↔ (applyOps ops EventQueue.new).eventsFor k ≠ [])
      ∧ ((applyOps ops EventQueue.new).is_empty = true
          ↔ (applyOps ops EventQueue.new).totalEvents = 0) := by
  have hinv := applyOps_invariant ops EventQueue.new ⟨rfl, rfl⟩
  refine ⟨hinv.1, fun k => ?_, ?_⟩
  · exact contains_iff_eventsFor_ne_nil hinv.1 k
  · exact isEmpty_iff_total_zero hinv.1

/-! ## Identifier service (constellation_identifier.rs, activity_identifier.rs) -/

/-- `ConstellationIdentifier` (constellation_identifier.rs): the per-thread
identifier. The shared `activity_counter` (`Arc<Mutex<u64>>`) is passed
explicitly as a `Nat` below; `group` is omitted (never read by the embedded
operations). -/
structure ConstellationIdentifier where
  constellation_id : Int
  node_info : NodeHandler
  thread_id : Int
deriving DecidableEq, Repr, Inhabited

/-- `ConstellationIdentifier::generate_activity_id` (constellation_identifier.rs
lines 103-111): under the mutex, return the counter's current value and
increment the stored `u64` (wrapping at `2^64`, as on release builds). -/
def generate_activity_id (counter : Nat) : Nat × Nat :=
  (counter, (counter + 1) % 2 ^ 64)

/-- `ActivityIdentifier::new` (activity_identifier.rs lines 51-62): combine the
constellation id and node info of the submitting thread's
`ConstellationIdentifier` with a fresh sequence number from the shared counter. -/
def ActivityIdentifier.new (cid : ConstellationIdentifier) (counter : Nat) :
    ActivityIdentifier × Nat :=
  let r := generate_activity_id counter
  (⟨cid.constellation_id, cid.node_info, r.1⟩, r.2)

/-- Shared counter value after `n` generation calls; it starts at `0`
(`Arc::new(Mutex::new(0))` in `MultiThreadedConstellation::new`). -/
def counterAfter : Nat → Nat
  | 0 => 0
  | n + 1 => (generate_activity_id (counterAfter n)).2

/-- The sequence number returned by the `n`-th (0-based) generation call. -/
def nthActivityId (n : Nat) : Nat :=
  (generate_activity_id (counterAfter n)).1

theorem counterAfter_eq (n : Nat) : counterAfter n = n % 2 ^ 64 := by
  induction n with
  | zero => rfl
  | succ m ih =>
    show (generate_activity_id (counterAfter m)).2 = (m + 1) % 2 ^ 64
    rw [ih]
    show (m % 2 ^ 64 + 1) % 2 ^ 64 = (m + 1) % 2 ^ 64
    conv_rhs => rw [Nat.add_mod]
    simp [Nat.mod_mod_of_dvd]

/-! ## Claims about identifiers -/

/-- C6 counterexample: the claim says equality and hashing use the same three
fields. Two identifiers that agree on `constellation_id`, `node_id` and
`activity_id` but differ in `node_name` are equal under `PartialEq`, yet the
derived `Hash` feeds the hasher different field tuples (it hashes `node_name`
too), so hashing does not use only those three fields. -/
theorem C6_hash_uses_node_name_counterexample :
    aidEq ⟨0, ⟨"alpha", 0⟩, 0⟩ ⟨0, ⟨"beta", 0⟩, 0⟩ = true
      ∧ hashFields ⟨0, ⟨"alpha", 0⟩, 0⟩ ≠ hashFields ⟨0, ⟨"beta", 0⟩, 0⟩ := by
  constructor
  · rfl
  · decide

/-- C6 (amended): equality of `ActivityIdentifier`s holds exactly when
`constellation_id`, `node_id` and `activity_id` all agree, while the derived
`Hash` feeds the hasher those three fields AND `node_name`: equal identifiers
are fed to the hasher identically exactly when their node names also agree. -/
theorem C6_eq_three_fields_hash_four (a b : ActivityIdentifier) :
    (aidEq a b = true
        ↔ a.constellation_id = b.constellation_id
            ∧ a.node_info.node_id = b.node_info.node_id
            ∧ a.activity_id = b.activity_id)
      ∧ (hashFields a = hashFields b
          ↔ a.constellation_id = b.constellation_id
              ∧ a.node_info.node_id = b.node_info.node_id
              ∧ a.activity_id = b.activity_id
              ∧ a.node_info.node_name = b.node_info.node_name) := by
  constructor
  · simp only [aidEq, Bool.and_eq_true, beq_iff_eq]
    constructor
    · rintro ⟨⟨h1, h2⟩, h3⟩
      exact ⟨h3, h2, h1⟩
    · rintro ⟨h1, h2, h3⟩
      exact ⟨⟨h3, h2⟩, h1⟩
  · simp only [hashFields, Prod.mk.injEq]
    constructor
    · rintro ⟨h1, h2, h3, h4⟩
      exact ⟨h1, h3, h4, h2⟩
    · rintro ⟨h1, h2, h3, h4⟩
      exact ⟨h1, h4, h2, h3⟩

/-- C8: sequence numbers drawn from the shared counter are strictly
increasing over any run of fewer than `2^64` generation calls (each call
returns the current value and increments under the mutex), so two identifiers
generated by the same constellation thread at different calls are never equal. -/
theorem C8_sequence_strictly_increasing (m n : Nat) (hmn : m < n)
    (hn : n < 2 ^ 64) :
    nthActivityId m < nthActivityId n
      ∧ ∀ (cid : Int) (ni : NodeHandler),
          aidEq ⟨cid, ni, nthActivityId m⟩ ⟨cid, ni, nthActivityId n⟩ = false := by
  have hm : nthActivityId m = m := by
    show (generate_activity_id (counterAfter m)).1 = m
    rw [counterAfter_eq]
    exact Nat.mod_eq_of_lt (lt_trans hmn hn)
  have hn' : nthActivityId n = n := by
    show (generate_activity_id (counterAfter n)).1 = n
    rw [counterAfter_eq]
    exact Nat.mod_eq_of_lt hn
  refine ⟨by rw [hm, hn']; exact hmn, fun cid ni => ?_⟩
  have : (nthActivityId m == nthActivityId n) = false := by
    rw [hm, hn']
    simpa using Nat.ne_of_lt hmn
  simp [aidEq, this]

/-- C8 witness: the first two generated sequence numbers, at concrete inputs. -/
theorem C8_sequence_strictly_increasing_witness :
    nthActivityId 0 < nthActivityId 1
      ∧ aidEq ⟨0, nodeEx, nthActivityId 0⟩ ⟨0, nodeEx, nthActivityId 1⟩ = false :=
  ⟨(C8_sequence_strictly_increasing 0 1 (by decide) (by norm_num)).1,
    (C8_sequence_strictly_increasing 0 1 (by decide) (by norm_num)).2 0 nodeEx⟩

/-! ## Activities, wrappers and per-worker queues
(activity.rs, activity_wrapper.rs, thread_helper.rs) -/

/-- `State` (activity.rs): return state of an activity lifecycle call. -/
inductive State where
  | FINISH
  | SUSPEND
deriving DecidableEq, Repr, BEq, Inhabited

/-- The behaviour of a user activity (`ActivityTrait`): the `State` returned
by `initialize`, and the `State` returned by `process` as a function of the
optional event supplied. `cleanup` returns nothing and is only traced. -/
structure ActivityModel where
  initResult : State
  processResult : Option Event → State

instance : Inhabited ActivityModel := ⟨⟨.FINISH, fun _ => .FINISH⟩⟩

/-- `ActivityWrapper` (activity_wrapper.rs): identifier, flags, context and
the wrapped user activity. -/
structure ActivityWrapper where
  id : ActivityIdentifier
  may_be_stolen : Bool
  context : String
  expects_events : Bool
  activity : ActivityModel

instance : Inhabited ActivityWrapper := ⟨⟨default, false, "", false, default⟩⟩

/-- `ActivityWrapper::expects_event`. -/
def ActivityWrapper.expects_event (w : ActivityWrapper) : Bool := w.expects_events

/-- `HashMap::insert` keyed by `ActivityIdentifier`: replace the value of an
existing key, append a new entry otherwise. -/
def insertMap {α : Type} :
    List (ActivityIdentifier × α) → ActivityIdentifier → α →
      List (ActivityIdentifier × α)
  | [], k, v => [(k, v)]
  | p :: t, k, v => if aidEq p.1 k then (p.1, v) :: t else p :: insertMap t k v

/-- `ExecutorQueues` (thread_helper.rs): one worker's `const_id`, runnable map
(`activities`), suspended map (`activities_suspended`) and event queue. The
`ExecutorThread`'s `work_queue` / `work_suspended` / `event_queue` fields are
`Arc` aliases of these same three collections. -/
structure ExecutorQueues where
  const_id : ConstellationIdentifier
  activities : List (ActivityIdentifier × ActivityWrapper)
  activities_suspended : List (ActivityIdentifier × ActivityWrapper)
  event_queue : EventQueue

instance : Inhabited ExecutorQueues := ⟨⟨default, [], [], EventQueue.new⟩⟩

/-- `ExecutorThread::queues_empty` (executor_thread.rs lines 188-197): true
exactly when the runnable map, the suspended map and the event queue are all
empty. -/
def ExecutorQueues.queues_empty (t : ExecutorQueues) : Bool :=
  t.activities.isEmpty && t.activities_suspended.isEmpty && t.event_queue.is_empty

/-- The per-worker quantity summed by `get_thread_with_least_work`:
`activities.len() + activities_suspended.len()`. -/
def ExecutorQueues.load (t : ExecutorQueues) : Nat :=
  t.activities.length + t.activities_suspended.length

/-- The two `contains_key` probes of `distribute_event` on one worker:
runnable map or suspended map contains the key. -/
def ExecutorQueues.owns (t : ExecutorQueues) (key : ActivityIdentifier) : Bool :=
  containsKeyMap t.activities key || containsKeyMap t.activities_suspended key

/-- `MultiThreadHelper` (thread_helper.rs): the worker vector, the two ingest
queues fed from worker threads, the local waiting queue, and the shared
activity counter (reached in the code through each worker's
`const_id.activity_counter`). -/
structure MultiThreadHelper where
  threads : List ExecutorQueues
  activities_from_threads : List ActivityWrapper
  events_from_threads : List Event
  local_events : EventQueue
  activity_counter : Nat

/-- `u64::max_value()`, the initial `shortest` of
`get_thread_with_least_work`. -/
def u64MAX : Nat := 2 ^ 64 - 1

/-- The loop of `MultiThreadHelper::get_thread_with_least_work`
(thread_helper.rs lines 298-312) over the workers' loads: update `index` and
`shortest` whenever a strictly smaller load is found. -/
def leastWorkAux : List Nat → Nat → Nat → Nat → Nat
  | [], _, _, index => index
  | l :: ls, i, shortest, index =>
    if l < shortest then leastWorkAux ls (i + 1) l i
    else leastWorkAux ls (i + 1) shortest index

/-- `MultiThreadHelper::get_thread_with_least_work`. -/
def get_thread_with_least_work (threads : List ExecutorQueues) : Nat :=
  leastWorkAux (threads.map ExecutorQueues.load) 0 u64MAX 0

/-- `MultiThreadHelper::submit` (thread_helper.rs lines 224-253): pick the
least-loaded worker, build the wrapper (generating its identifier from that
worker's `const_id` and the shared counter), insert it into that worker's
runnable map keyed by the identifier, and return the identifier. -/
def MultiThreadHelper.submit (h : MultiThreadHelper) (activity : ActivityModel)
    (context : String) (may_be_stolen expects_events : Bool) :
    ActivityIdentifier × MultiThreadHelper :=
  let index := get_thread_with_least_work h.threads
  let thread := h.threads.getD index default
  let r := ActivityIdentifier.new thread.const_id h.activity_counter
  let aid := r.1
  let activity_wrapper : ActivityWrapper :=
    ⟨aid, may_be_stolen, context, expects_events, activity⟩
  (aid,
    { h with
      threads := h.threads.set index
        { thread with activities := insertMap thread.activities aid activity_wrapper },
      activity_counter := r.2 })

/-- `MultiThreadHelper::distribute_activity` (thread_helper.rs lines 375-386):
insert an already-wrapped activity into the least-loaded worker's runnable
map, keyed by its identifier. -/
def MultiThreadHelper.distribute_activity (h : MultiThreadHelper)
    (activity_trait : ActivityWrapper) : MultiThreadHelper :=
  let index := get_thread_with_least_work h.threads
  let thread := h.threads.getD index default
  { h with
    threads := h.threads.set index
      { thread with
        activities := insertMap thread.activities activity_trait.id activity_trait } }

/-- Insert an event into one worker's event queue under the event's
destination (`event_queue.insert(key, event)` with `key = event.get_dst()`). -/
def insertEventAt (t : ExecutorQueues) (e : Event) : ExecutorQueues :=
  { t with event_queue := t.event_queue.insert e.dst e }

/-- The worker scan of `MultiThreadHelper::distribute_event` (thread_helper.rs
lines 317-352): walk the workers in index order; at the first worker whose
runnable or suspended map contains the destination, insert the event into its
event queue and stop. `none` when no worker owns the destination. -/
def distributeEventAux : List ExecutorQueues → Event → Option (List ExecutorQueues)
  | [], _ => none
  | t :: ts, e =>
    if t.owns e.dst then some (insertEventAt t e :: ts)
    else (distributeEventAux ts e).map (fun r => t :: r)

/-- Index of the first worker owning a destination, for specification. -/
def firstOwner : List ExecutorQueues → ActivityIdentifier → Option Nat
  | [], _ => none
  | t :: ts, k =>
    if t.owns k then some 0 else (firstOwner ts k).map (fun i => i + 1)

/-- `MultiThreadHelper::distribute_event`: route to the first owner, or store
the event in the local waiting queue keyed by its destination. -/
def MultiThreadHelper.distribute_event (h : MultiThreadHelper) (event : Event) :
    MultiThreadHelper :=
  match distributeEventAux h.threads event with
  | some ts => { h with threads := ts }
  | none => { h with local_events := h.local_events.insert event.dst event }

/-- `MultiThreadHelper::send` (thread_helper.rs lines 258-265): logs and
delegates to `distribute_event`. -/
def MultiThreadHelper.send (h : MultiThreadHelper) (e : Event) : MultiThreadHelper :=
  h.distribute_event e

/-- `MultiThreadHelper::handle_local_events` (thread_helper.rs lines 390-412):
if the local waiting queue is non-empty, take its first key, remove one event
stored under it and re-attempt distribution. The code `unwrap`s the removed
event; the `none` branch below is unreachable for well-formed queues (the
code would panic there). -/
def MultiThreadHelper.handle_local_events (h : MultiThreadHelper) :
    MultiThreadHelper :=
  if h.local_events.is_empty then h
  else
    match h.local_events.keysList.head? with
    | none => h
    | some key =>
      match h.local_events.remove key with
      | (some event, guard) =>
        MultiThreadHelper.distribute_event { h with local_events := guard } event
      | (none, _) => h

/-- Modelled from the spec: the per-worker `InnerConstellation::done` lives in
`constellation_files/inner_constellation.rs`, which is not among the sources
(only its callers are). Per the spec (§4.4 Shutdown, §4.6) the worker signals
its executor, which replies `true` exactly when all three collections are
empty — the reply computed by `ExecutorThread::run` via
`ExecutorThread::queues_empty` (executor_thread.rs, in the sources) — and the
worker relays that reply as `Ok(..)`. -/
def innerDone (t : ExecutorQueues) : Except Unit Bool :=
  .ok t.queues_empty

/-- The worker loop of `MultiThreadHelper::done` (thread_helper.rs lines
273-291): ask each worker in turn; return `Ok(false)` at the first worker
reporting work left, `Err` if a worker errors, `Ok(true)` when all report
drained. -/
def doneAux : List ExecutorQueues → Except Unit Bool
  | [] => .ok true
  | t :: ts =>
    match innerDone t with
    | .ok res => if !res then .ok false else doneAux ts
    | .error e => .error e

/-- `MultiThreadHelper::done`. -/
def MultiThreadHelper.done (h : MultiThreadHelper) : Except Unit Bool :=
  doneAux h.threads

/-! ## Executor (executor_thread.rs) -/

/-- One lifecycle call made by the executor on a wrapped activity, traced in
order. -/
inductive LifecycleCall where
  | init
  | process (e : Option Event)
  | cleanup
deriving DecidableEq, BEq, Repr

/-- `ExecutorThread::process` (executor_thread.rs lines 165-185): call the
activity's `process` with the supplied optional event; on SUSPEND insert the
record into the suspended map and stop; on FINISH call `cleanup`. Returns the
updated worker queues and the trace of lifecycle calls made. -/
def ExecutorThread.process (s : ExecutorQueues) (activity : ActivityWrapper)
    (e : Option Event) : ExecutorQueues × List LifecycleCall :=
  match activity.activity.processResult e with
  | .SUSPEND =>
    ({ s with activities_suspended :=
        insertMap s.activities_suspended activity.id activity },
      [.process e])
  | .FINISH => (s, [.process e, .cleanup])

/-- `ExecutorThread::run_activity` (executor_thread.rs lines 133-160): call
`initialize`; on SUSPEND move the record to the suspended map. On FINISH,
when the activity expects events try to remove a matching event (suspending
the record when none is present), otherwise keep `event = None`; then hand
over to `ExecutorThread::process`. -/
def ExecutorThread.run_activity (s : ExecutorQueues) (activity : ActivityWrapper) :
    ExecutorQueues × List LifecycleCall :=
  match activity.activity.initResult with
  | .SUSPEND =>
    ({ s with activities_suspended :=
        insertMap s.activities_suspended activity.id activity },
      [.init])
  | .FINISH =>
    if activity.expects_event then
      let r := s.event_queue.remove activity.id
      match r.1 with
      | none =>
        ({ s with
            event_queue := r.2
            activities_suspended := insertMap s.activities_suspended activity.id activity },
          [.init])
      | some ev =>
        let pr := ExecutorThread.process { s with event_queue := r.2 } activity (some ev)
        (pr.1, .init :: pr.2)
    else
      let pr := ExecutorThread.process s activity none
      (pr.1, .init :: pr.2)

/-! ## Top-level facade (multi_threaded_constellation.rs) -/

/-- Outcome of a facade call: a returned value, the `ConstellationError`
value, or a panic (`unwrap()` on `None` / `expect` failure aborting the
thread). -/
inductive FacadeResult (α : Type) where
  | ok (value : α)
  | err
  | panicked
deriving Repr

/-- `MultiThreadedConstellation` (multi_threaded_constellation.rs): the
facade. `thread_handler` is `None` until `activate` has run. The MPI universe
is reduced to this process's rank and the world size. -/
structure MultiThreadedConstellation where
  const_id : ConstellationIdentifier
  thread_handler : Option MultiThreadHelper
  rank : Int
  world_size : Int

/-- `MultiThreadedConstellation::new` (multi_threaded_constellation.rs lines
249-263): the facade starts with `thread_handler: None`. -/
def MultiThreadedConstellation.new (cid : ConstellationIdentifier)
    (rank world_size : Int) : MultiThreadedConstellation :=
  ⟨cid, none, rank, world_size⟩

/-- `MultiThreadedConstellation::submit` (lines 155-168):
`self.thread_handler.as_mut().unwrap().submit(..)` — panics when
`thread_handler` is `None`. -/
def MultiThreadedConstellation.submit (c : MultiThreadedConstellation)
    (activity : ActivityModel) (context : String)
    (may_be_stolen expects_events : Bool) :
    FacadeResult (ActivityIdentifier × MultiThreadedConstellation) :=
  match c.thread_handler with
  | none => .panicked
  | some h =>
    let r := h.submit activity context may_be_stolen expects_events
    .ok (r.1, { c with thread_handler := some r.2 })

/-- `MultiThreadedConstellation::send`:
`self.thread_handler.as_mut().unwrap().send(e)` — panics when
`thread_handler` is `None`. -/
def MultiThreadedConstellation.send (c : MultiThreadedConstellation)
    (e : Event) : FacadeResult MultiThreadedConstellation :=
  match c.thread_handler with
  | none => .panicked
  | some h => .ok { c with thread_handler := some (h.send e) }

/-- `MultiThreadedConstellation::done`:
`self.thread_handler.as_mut().unwrap().done()` — panics when `thread_handler`
is `None`; otherwise returns the helper's result (the subsequent signalling
and joining of the coordinator thread does not change the returned value). -/
def MultiThreadedConstellation.done (c : MultiThreadedConstellation) :
    FacadeResult Bool :=
  match c.thread_handler with
  | none => .panicked
  | some h =>
    match h.done with
    | .ok b => .ok b
    | .error _ => .err

/-- `MultiThreadedConstellation::identifier`: clones `const_id`, in any state. -/
def MultiThreadedConstellation.identifier (c : MultiThreadedConstellation) :
    FacadeResult ConstellationIdentifier :=
  .ok c.const_id

/-- `MultiThreadedConstellation::is_master`: `mpi_info::master` — rank 0, in
any state. -/
def MultiThreadedConstellation.is_master (c : MultiThreadedConstellation) :
    FacadeResult Bool :=
  .ok (c.rank == 0)

/-- `MultiThreadedConstellation::nodes`: `mpi_info::size`, in any state. -/
def MultiThreadedConstellation.nodes (c : MultiThreadedConstellation) :
    FacadeResult Int :=
  .ok c.world_size

/-! ## Further concrete states for counterexamples and witnesses -/

def cidEx : ConstellationIdentifier := ⟨0, nodeEx, 0⟩

def workerEmptyEx : ExecutorQueues := ⟨cidEx, [], [], EventQueue.new⟩

def actFinEx : ActivityModel := ⟨.FINISH, fun _ => .FINISH⟩

def actSusEx : ActivityModel := ⟨.FINISH, fun _ => .SUSPEND⟩

def wFinEx : ActivityWrapper := ⟨dEx, false, "ctx", false, actFinEx⟩

def wSusEx : ActivityWrapper := ⟨dEx, false, "ctx", false, actSusEx⟩

def helperDrainedEx : MultiThreadHelper :=
  ⟨[workerEmptyEx], [], [], EventQueue.new.insert dEx e1Ex, 0⟩

def mtcEx : MultiThreadedConstellation := MultiThreadedConstellation.new cidEx 0 1

/-! ## C3: what `done` actually checks -/

theorem doneAux_eq_ok_true_iff (ts : List ExecutorQueues) :
    doneAux ts = .ok true ↔ ts.all ExecutorQueues.queues_empty = true := by
  induction ts with
  | nil => simp [doneAux]
  | cons t ts ih =>
    simp only [doneAux, innerDone, List.all_cons, Bool.and_eq_true]
    cases hq : t.queues_empty
    · simp [hq]
    · simp [hq, ih]

/-- C3 counterexample: a coordinator whose single worker is fully drained but
whose local waiting queue still holds an event. `MultiThreadHelper::done`
returns `Ok(true)` even though a coordinator queue contains an undistributed
item, so the claim that `done` returns drained only when the ingest and local
waiting queues are also empty is false. -/
theorem C3_done_ignores_coordinator_queues_counterexample :
    helperDrainedEx.done = .ok true
      ∧ helperDrainedEx.local_events.is_empty = false := by
  exact ⟨rfl, rfl⟩

/-- C3 (amended): `MultiThreadHelper::done` returns `Ok(true)` exactly when
every worker's runnable map, suspended map and event queue are empty
(`ExecutorThread::queues_empty` for each worker); the coordinator's ingest
queues and local waiting queue are not consulted. -/
theorem C3_done_iff_all_workers_drained (h : MultiThreadHelper) :
    h.done = .ok true ↔ h.threads.all ExecutorQueues.queues_empty = true :=
  doneAux_eq_ok_true_iff h.threads

/-! ## C2: executor handling of FINISH-from-initialize, expects_events=false -/

theorem containsKeyMap_insertMap_self {α : Type}
    (m : List (ActivityIdentifier × α)) (k : ActivityIdentifier) (v : α) :
    containsKeyMap (insertMap m k v) k = true := by
  induction m with
  | nil => simp [insertMap, containsKeyMap, aidEq_refl]
  | cons p t ih =>
    cases hp : aidEq p.1 k
    · simp only [insertMap, hp, Bool.false_eq_true, ite_false]
      simp [containsKeyMap, List.any_cons] at ih ⊢
      exact Or.inr ih
    · simp [insertMap, hp, containsKeyMap, List.any_cons]

/-- C2 counterexample: an activity submitted with `expects_events = false`
whose `initialize` returns FINISH. The claim says the executor calls cleanup
and drops the record WITHOUT invoking `process`; the code's trace is
`initialize, process(None), cleanup` — `process` IS invoked (with the absence
marker), so the claimed trace `initialize, cleanup` is wrong. -/
theorem C2_process_is_invoked_counterexample :
    (ExecutorThread.run_activity workerEmptyEx wFinEx).2
        = [.init, .process none, .cleanup]
      ∧ (ExecutorThread.run_activity workerEmptyEx wFinEx).2
          ≠ [.init, .cleanup] := by
  constructor
  · rfl
  · decide

/-- C2 (amended): for an activity with `expects_events = false` whose
`initialize` returns FINISH, the executor invokes `process` exactly once with
the absence marker `None` (no event is removed); `cleanup` is then called
exactly once when that `process` call returns FINISH, and zero times — with
the record moved to the suspended map instead — when it returns SUSPEND. -/
theorem C2_finish_calls_process_with_none (s : ExecutorQueues)
    (w : ActivityWrapper) (hee : w.expects_events = false)
    (hinit : w.activity.initResult = .FINISH) :
    ((ExecutorThread.run_activity s w).2
        = .init :: .process none ::
            (match w.activity.processResult none with
              | .FINISH => [.cleanup]
              | .SUSPEND => []))
      ∧ ((ExecutorThread.run_activity s w).2.count .cleanup
          = match w.activity.processResult none with
            | .FINISH => 1
            | .SUSPEND => 0)
      ∧ (w.activity.processResult none = .SUSPEND →
          containsKeyMap (ExecutorThread.run_activity s w).1.activities_suspended
            w.id = true) := by
  have hee' : w.expects_event = false := hee
  simp only [ExecutorThread.run_activity, hinit, hee', Bool.false_eq_true,
    ite_false, ExecutorThread.process]
  cases hp : w.activity.processResult none with
  | FINISH =>
    exact ⟨rfl, rfl, fun hps => absurd hps (by simp)⟩
  | SUSPEND =>
    exact ⟨rfl, rfl, fun _ => containsKeyMap_insertMap_self _ _ _⟩

/-- C2 witness: the amended theorem applied to a concrete worker state and a
concrete suspending activity. -/
theorem C2_finish_calls_process_with_none_witness :
    containsKeyMap
        (ExecutorThread.run_activity workerEmptyEx wSusEx).1.activities_suspended
        dEx = true :=
  (C2_finish_calls_process_with_none workerEmptyEx wSusEx rfl rfl).2.2 rfl

/-! ## C7: facade behaviour before activation -/

/-- C7 counterexample: on a freshly constructed facade (`activate` not yet
called, `thread_handler = None`), `is_master` SUCCEEDS and `submit` PANICS
(`unwrap()` on `None`); neither returns an error value, so the claim that
every facade operation outside the active state fails by returning the
StateError error value is false. -/
theorem C7_inactive_counterexample :
    mtcEx.is_master = .ok true
      ∧ mtcEx.submit actFinEx "hello" false false = .panicked := by
  exact ⟨rfl, rfl⟩

/-- C7 (amended): while `thread_handler` is `None` (before `activate`),
`submit`, `send` and `done` abort by panicking on `unwrap()` of `None` rather
than returning an error value, while `identifier`, `is_master` and `nodes`
succeed; the code has no StateError — its only error value is
`ConstellationError`. -/
theorem C7_inactive_behaviour (c : MultiThreadedConstellation)
    (activity : ActivityModel) (ctx : String) (mbs ee : Bool) (e : Event)
    (h : c.thread_handler = none) :
    c.submit activity ctx mbs ee = .panicked
      ∧ c.send e = .panicked
      ∧ c.done = .panicked
      ∧ c.identifier = .ok c.const_id
      ∧ c.is_master = .ok (c.rank == 0)
      ∧ c.nodes = .ok c.world_size := by
  refine ⟨?_, ?_, ?_, rfl, rfl, rfl⟩ <;>
    simp [MultiThreadedConstellation.submit, MultiThreadedConstellation.send,
      MultiThreadedConstellation.done, h]

/-- C7 witness: the amended theorem applied to the concrete inactive facade. -/
theorem C7_inactive_behaviour_witness :
    mtcEx.send e1Ex = .panicked ∧ mtcEx.done = .panicked :=
  ⟨(C7_inactive_behaviour mtcEx actFinEx "w" false false e1Ex rfl).2.1,
    (C7_inactive_behaviour mtcEx actFinEx "w" false false e1Ex rfl).2.2.1⟩

/-! ## C5: event distribution scans workers in index order -/

theorem firstOwner_bound {ts : List ExecutorQueues} {k : ActivityIdentifier}
    {i : Nat} (h : firstOwner ts k = some i) :
    i < ts.length ∧ (ts.getD i default).owns k = true
      ∧ ∀ j, j < i → (ts.getD j default).owns k = false := by
  induction ts generalizing i with
  | nil => simp [firstOwner] at h
  | cons t ts ih =>
    cases ho : t.owns k
    · rw [firstOwner, ho] at h
      simp only [Bool.false_eq_true, ite_false, Option.map_eq_some'] at h
      obtain ⟨i2, hi2, rfl⟩ := h
      obtain ⟨b1, b2, b3⟩ := ih hi2
      refine ⟨by simpa using b1, b2, fun j hj => ?_⟩
      cases j with
      | zero => exact ho
      | succ j2 => exact b3 j2 (by omega)
    · rw [firstOwner, ho] at h
      simp only [ite_true, Option.some.injEq] at h
      subst h
      exact ⟨by simp, ho, fun j hj => absurd hj (Nat.not_lt_zero j)⟩

theorem firstOwner_none_all {ts : List ExecutorQueues} {k : ActivityIdentifier}
    (h : firstOwner ts k = none) :
    ∀ j, j < ts.length → (ts.getD j default).owns k = false := by
  induction ts with
  | nil => intro j hj; simp at hj
  | cons t ts ih =>
    cases ho : t.owns k
    · rw [firstOwner, ho] at h
      simp only [Bool.false_eq_true, ite_false, Option.map_eq_none'] at h
      intro j hj
      cases j with
      | zero => exact ho
      | succ j2 => exact ih h j2 (by simpa using hj)
    · rw [firstOwner, ho] at h
      simp at h

theorem distAux_some {ts : List ExecutorQueues} {e : Event} {i : Nat}
    (h : firstOwner ts e.dst = some i) :
    distributeEventAux ts e = some (ts.set i (insertEventAt (ts.getD i default) e)) := by
  induction ts generalizing i with
  | nil => simp [firstOwner] at h
  | cons t ts ih =>
    cases ho : t.owns e.dst
    · rw [firstOwner, ho] at h
      simp only [Bool.false_eq_true, ite_false, Option.map_eq_some'] at h
      obtain ⟨i2, hi2, rfl⟩ := h
      rw [distributeEventAux, ho]
      simp only [Bool.false_eq_true, ite_false, ih hi2, Option.map_some']
      rfl
    · rw [firstOwner, ho] at h
      simp only [ite_true, Option.some.injEq] at h
      subst h
      rw [distributeEventAux, ho]
      rfl

theorem distAux_none {ts : List ExecutorQueues} {e : Event}
    (h : firstOwner ts e.dst = none) :
    distributeEventAux ts e = none := by
  induction ts with
  | nil => rfl
  | cons t ts ih =>
    cases ho : t.owns e.dst
    · rw [firstOwner, ho] at h
      simp only [Bool.false_eq_true, ite_false, Option.map_eq_none'] at h
      rw [distributeEventAux, ho]
      simp [ih h]
    · rw [firstOwner, ho] at h
      simp at h

/-- C5: for every distributed event, the workers are scanned in index order
and the event lands in the event queue of the FIRST worker whose runnable or
suspended map contains the destination (all earlier workers do not contain
it), other workers and the local waiting queue untouched; when no worker
contains the destination, all workers are untouched and the event is stored
in the local waiting queue keyed by its destination. -/
theorem C5_event_to_first_owner_else_local (h : MultiThreadHelper) (e : Event) :
    (∀ i, firstOwner h.threads e.dst = some i →
        i < h.threads.length
          ∧ (h.threads.getD i default).owns e.dst = true
          ∧ (∀ j, j < i → (h.threads.getD j default).owns e.dst = false)
          ∧ (h.distribute_event e).threads
              = h.threads.set i (insertEventAt (h.threads.getD i default) e)
          ∧ (h.distribute_event e).local_events = h.local_events)
      ∧ (firstOwner h.threads e.dst = none →
          (h.distribute_event e).threads = h.threads
            ∧ (h.distribute_event e).local_events
                = h.local_events.insert e.dst e) := by
  constructor
  · intro i hi
    obtain ⟨h1, h2, h3⟩ := firstOwner_bound hi
    refine ⟨h1, h2, h3, ?_, ?_⟩ <;>
      simp [MultiThreadHelper.distribute_event, distAux_some hi]
  · intro hn
    constructor <;> simp [MultiThreadHelper.distribute_event, distAux_none hn]

def workerOwnsEx : ExecutorQueues := ⟨cidEx, [(dEx, wSusEx)], [], EventQueue.new⟩

def helperRouteEx : MultiThreadHelper :=
  ⟨[workerEmptyEx, workerOwnsEx], [], [], EventQueue.new, 0⟩

/-- C5 witness: with worker 0 not owning the destination and worker 1 owning
it, the event is inserted into worker 1's event queue and the local waiting
queue is untouched. -/
theorem C5_event_to_first_owner_else_local_witness :
    (helperRouteEx.distribute_event e1Ex).threads
        = helperRouteEx.threads.set 1
            (insertEventAt (helperRouteEx.threads.getD 1 default) e1Ex)
      ∧ (helperRouteEx.distribute_event e1Ex).local_events
          = helperRouteEx.local_events :=
  ⟨((C5_event_to_first_owner_else_local helperRouteEx e1Ex).1 1 rfl).2.2.2.1,
    ((C5_event_to_first_owner_else_local helperRouteEx e1Ex).1 1 rfl).2.2.2.2⟩

/-! ## C4: submissions go to the least-loaded worker, lowest index on ties -/

theorem getD_mem_of_lt {α : Type} (l : List α) (k : Nat) (d : α)
    (h : k < l.length) : l.getD k d ∈ l := by
  rw [List.getD_eq_getElem _ _ h]
  exact List.getElem_mem h

/-- Full characterisation of the `get_thread_with_least_work` loop: either no
element beats the running `shortest` and the running `index` is returned, or
the first index of the minimum among elements smaller than `shortest` is
returned (offset by the loop counter `i0`). -/
theorem leastWorkAux_spec (ls : List Nat) (i0 s idx : Nat) :
    ((∀ x ∈ ls, s ≤ x) ∧ leastWorkAux ls i0 s idx = idx)
      ∨ (∃ j, j < ls.length
          ∧ leastWorkAux ls i0 s idx = i0 + j
          ∧ ls.getD j 0 < s
          ∧ (∀ j2, j2 < ls.length → ls.getD j 0 ≤ ls.getD j2 0 ∨ s ≤ ls.getD j2 0)
          ∧ (∀ j2, j2 < j → ls.getD j 0 < ls.getD j2 0 ∨ s ≤ ls.getD j2 0)) := by
  induction ls generalizing i0 s idx with
  | nil => exact Or.inl ⟨by simp, rfl⟩
  | cons a ls ih =>
    by_cases ha : a < s
    · right
      rcases ih (i0 + 1) a i0 with ⟨hall, heq⟩ | ⟨j, hjl, heq, hlt, hmin, hstrict⟩
      · refine ⟨0, by simp, ?_, by simpa using ha, ?_, ?_⟩
        · simp only [leastWorkAux, if_pos ha, heq]
          omega
        · intro j2 hj2
          cases j2 with
          | zero => exact Or.inl (le_refl _)
          | succ k =>
            have hk : k < ls.length := by simpa using hj2
            have := hall (ls.getD k 0) (getD_mem_of_lt ls k 0 hk)
            simp only [List.getD_cons_zero, List.getD_cons_succ]
            exact Or.inl this
        · intro j2 hj2
          exact absurd hj2 (Nat.not_lt_zero j2)
      · refine ⟨j + 1, by simpa using hjl, ?_, ?_, ?_, ?_⟩
        · simp only [leastWorkAux, if_pos ha, heq]
          omega
        · simp only [List.getD_cons_succ]
          exact lt_trans hlt ha
        · intro j2 hj2
          cases j2 with
          | zero =>
            simp only [List.getD_cons_zero, List.getD_cons_succ]
            exact Or.inl (le_of_lt hlt)
          | succ k =>
            have hk : k < ls.length := by simpa using hj2
            simp only [List.getD_cons_succ]
            rcases hmin k hk with hc | hc
            · exact Or.inl hc
            · exact Or.inl (le_of_lt (lt_of_lt_of_le hlt hc))
        · intro j2 hj2
          cases j2 with
          | zero =>
            simp only [List.getD_cons_zero, List.getD_cons_succ]
            exact Or.inl hlt
          | succ k =>
            have hk : k < j := by omega
            simp only [List.getD_cons_succ]
            rcases hstrict k hk with hc | hc
            · exact Or.inl hc
            · exact Or.inl (lt_of_lt_of_le hlt hc)
    · have ha' : s ≤ a := Nat.le_of_not_lt ha
      rcases ih (i0 + 1) s idx with ⟨hall, heq⟩ | ⟨j, hjl, heq, hlt, hmin, hstrict⟩
      · left
        refine ⟨?_, ?_⟩
        · intro x hx
          rcases List.mem_cons.mp hx with rfl | hx2
          · exact ha'
          · exact hall x hx2
        · simp only [leastWorkAux, if_neg ha, heq]
      · right
        refine ⟨j + 1, by simpa using hjl, ?_, ?_, ?_, ?_⟩
        · simp only [leastWorkAux, if_neg ha, heq]
          omega
        · simpa only [List.getD_cons_succ] using hlt
        · intro j2 hj2
          cases j2 with
          | zero =>
            simp only [List.getD_cons_zero, List.getD_cons_succ]
            exact Or.inr ha'
          | succ k =>
            have hk : k < ls.length := by simpa using hj2
            simpa only [List.getD_cons_succ] using hmin k hk
        · intro j2 hj2
          cases j2 with
          | zero =>
            simp only [List.getD_cons_zero, List.getD_cons_succ]
            exact Or.inr ha'
          | succ k =>
            have hk : k < j := by omega
            simpa only [List.getD_cons_succ] using hstrict k hk

theorem map_load_getD (ts : List ExecutorQueues) (j : Nat)
    (hj : j < ts.length) :
    (ts.map ExecutorQueues.load).getD j 0 = (ts.getD j default).load := by
  rw [List.getD_eq_getElem _ _ (by simpa using hj),
    List.getD_eq_getElem _ _ hj, List.getElem_map]

/-- C4: for every submission (both `submit` and the ingest-queue path
`distribute_activity`), the chosen worker index is in range, its
runnable+suspended load is minimal among all workers, every worker of equal
load has a higher index (so ties go to the lowest index), and the wrapper is
inserted into exactly that worker's runnable map keyed by the generated
identifier. -/
theorem C4_submit_goes_to_least_loaded_worker (h : MultiThreadHelper)
    (activity : ActivityModel) (ctx : String) (mbs ee : Bool)
    (w : ActivityWrapper)
    (hne : h.threads ≠ [])
    (hload : ∀ t ∈ h.threads, t.load < u64MAX) :
    get_thread_with_least_work h.threads < h.threads.length
      ∧ (∀ j, j < h.threads.length →
          (h.threads.getD (get_thread_with_least_work h.threads) default).load
            ≤ (h.threads.getD j default).load)
      ∧ (∀ j, j < get_thread_with_least_work h.threads →
          (h.threads.getD (get_thread_with_least_work h.threads) default).load
            < (h.threads.getD j default).load)
      ∧ (h.submit activity ctx mbs ee).2.threads
          = h.threads.set (get_thread_with_least_work h.threads)
              { h.threads.getD (get_thread_with_least_work h.threads) default with
                activities := insertMap
                  (h.threads.getD (get_thread_with_least_work h.threads) default).activities
                  (h.submit activity ctx mbs ee).1
                  ⟨(h.submit activity ctx mbs ee).1, mbs, ctx, ee, activity⟩ }
      ∧ (h.submit activity ctx mbs ee).1
          = (ActivityIdentifier.new
              (h.threads.getD (get_thread_with_least_work h.threads) default).const_id
              h.activity_counter).1
      ∧ (h.distribute_activity w).threads
          = h.threads.set (get_thread_with_least_work h.threads)
              { h.threads.getD (get_thread_with_least_work h.threads) default with
                activities := insertMap
                  (h.threads.getD (get_thread_with_least_work h.threads) default).activities
                  w.id w } := by
  have hmain :
      get_thread_with_least_work h.threads < h.threads.length
        ∧ (∀ j, j < h.threads.length →
            (h.threads.getD (get_thread_with_least_work h.threads) default).load
              ≤ (h.threads.getD j default).load)
        ∧ (∀ j, j < get_thread_with_least_work h.threads →
            (h.threads.getD (get_thread_with_least_work h.threads) default).load
              < (h.threads.getD j default).load) := by
    rcases leastWorkAux_spec (h.threads.map ExecutorQueues.load) 0 u64MAX 0 with
      ⟨hall, heq⟩ | ⟨j, hjl, heq, hlt, hmin, hstrict⟩
    · obtain ⟨t0, ht0⟩ := List.exists_mem_of_ne_nil h.threads hne
      have h1 := hall t0.load (List.mem_map_of_mem ExecutorQueues.load ht0)
      exact absurd h1 (by simpa using hload t0 ht0)
    · have hjl' : j < h.threads.length := by simpa using hjl
      have hval : get_thread_with_least_work h.threads = j := by
        simpa [get_thread_with_least_work] using heq
      refine ⟨by rw [hval]; exact hjl', ?_, ?_⟩
      · intro j2 hj2
        rcases hmin j2 (by simpa using hj2) with hc | hc
        · rw [hval]
          rw [map_load_getD _ _ hjl', map_load_getD _ _ hj2] at hc
          exact hc
        · rw [map_load_getD _ _ hj2] at hc
          have := hload _ (getD_mem_of_lt h.threads j2 default hj2)
          omega
      · intro j2 hj2
        rw [hval] at hj2
        have hj2' : j2 < h.threads.length := lt_trans hj2 hjl'
        rcases hstrict j2 hj2 with hc | hc
        · rw [hval]
          rw [map_load_getD _ _ hjl', map_load_getD _ _ hj2'] at hc
          exact hc
        · rw [map_load_getD _ _ hj2'] at hc
          have := hload _ (getD_mem_of_lt h.threads j2 default hj2')
          omega
  exact ⟨hmain.1, hmain.2.1, hmain.2.2, rfl, rfl, rfl⟩

def helperLoadEx : MultiThreadHelper :=
  ⟨[workerOwnsEx, workerEmptyEx], [], [], EventQueue.new, 5⟩

/-- C4 witness: with worker 0 of load 1 and worker 1 of load 0, the chosen
index is in range and its load is at most worker 0's. -/
theorem C4_submit_goes_to_least_loaded_worker_witness :
    get_thread_with_least_work helperLoadEx.threads < helperLoadEx.threads.length
      ∧ (helperLoadEx.threads.getD
            (get_thread_with_least_work helperLoadEx.threads) default).load
          ≤ (helperLoadEx.threads.getD 0 default).load :=
  ⟨(C4_submit_goes_to_least_loaded_worker helperLoadEx actFinEx "w4" false false
      wFinEx (by simp [helperLoadEx])
      (by
        intro t ht
        rcases (by simpa [helperLoadEx] using ht : t = workerOwnsEx ∨ t = workerEmptyEx)
          with rfl | rfl <;>
          norm_num [ExecutorQueues.load, workerOwnsEx, workerEmptyEx, u64MAX])).1,
    (C4_submit_goes_to_least_loaded_worker helperLoadEx actFinEx "w4" false false
      wFinEx (by simp [helperLoadEx])
      (by
        intro t ht
        rcases (by simpa [helperLoadEx] using ht : t = workerOwnsEx ∨ t = workerEmptyEx)
          with rfl | rfl <;>
          norm_num [ExecutorQueues.load, workerOwnsEx, workerEmptyEx, u64MAX])).2.1
      0 (by decide)⟩

/-! ## C9: events with an unknown destination stay in the local waiting queue -/

theorem mem_of_getLast?_event {l : List Event} {x : Event}
    (h : l.getLast? = some x) : x ∈ l := by
  induction l with
  | nil => simp at h
  | cons a t ih =>
    cases t with
    | nil => simp_all
    | cons b u =>
      have h' : (b :: u).getLast? = some x := by
        simpa [List.getLast?] using h
      exact List.mem_cons_of_mem a (ih h')

theorem eventsForL_keyedByDst {l : List EQEntry} {k : ActivityIdentifier}
    {ev : Event}
    (hdst : l.all (fun p => p.2.all (fun e => aidEq p.1 e.dst)) = true)
    (hm : ev ∈ eventsForL l k) : aidEq k ev.dst = true := by
  unfold eventsForL at hm
  cases hfind : l.find? (fun p => aidEq p.1 k) with
  | none =>
    rw [hfind] at hm
    simp at hm
  | some p =>
    rw [hfind] at hm
    simp only at hm
    have hpk : aidEq p.1 k = true := by simpa using List.find?_some hfind
    have hpm : p ∈ l := List.mem_of_find?_eq_some hfind
    have hall := (List.all_eq_true.mp hdst) p hpm
    have hpd : aidEq p.1 ev.dst = true := (List.all_eq_true.mp hall) ev hm
    exact aidEq_trans (aidEq_symm hpk) hpd

theorem map_eventsFor_set_insert (ts : List ExecutorQueues) (i : Nat)
    (e : Event) (d : ActivityIdentifier) (hne : aidEq e.dst d = false) :
    (ts.set i (insertEventAt (ts.getD i default) e)).map
        (fun t => t.event_queue.eventsFor d)
      = ts.map (fun t => t.event_queue.eventsFor d) := by
  induction ts generalizing i with
  | nil => simp
  | cons t ts ih =>
    cases i with
    | zero =>
      simp only [List.getD_cons_zero, List.set_cons_zero, List.map_cons,
        List.cons.injEq]
      refine ⟨?_, trivial⟩
      show (insertEventAt t e).event_queue.eventsFor d = t.event_queue.eventsFor d
      exact eventsForL_insert_ne hne t.event_queue.data e
    | succ i2 =>
      simp only [List.getD_cons_succ, List.set_cons_succ, List.map_cons,
        List.cons.injEq]
      exact ⟨trivial, ih i2⟩

/-- C9: for every destination `d` contained in no worker's runnable or
suspended map, one coordinator iteration of the local-waiting drain
(`handle_local_events`, which removes one locally waiting event and
re-attempts distribution) preserves exactly the events waiting for `d` in the
local waiting queue and delivers nothing for `d` to any worker's event queue:
such an event is neither dropped nor delivered while its destination is
absent. (The two queue well-formedness hypotheses — unique map keys, events
keyed by their own destination — hold for every queue the code builds.) -/
theorem C9_unmatched_event_stays_local (h : MultiThreadHelper)
    (d : ActivityIdentifier)
    (huniq : uniqKeysB h.local_events.data = true)
    (hdst : h.local_events.keyedByDst = true)
    (habs : ∀ j, j < h.threads.length → (h.threads.getD j default).owns d = false) :
    h.handle_local_events.local_events.eventsFor d = h.local_events.eventsFor d
      ∧ h.handle_local_events.threads.map (fun t => t.event_queue.eventsFor d)
          = h.threads.map (fun t => t.event_queue.eventsFor d) := by
  unfold MultiThreadHelper.handle_local_events
  by_cases hemp : h.local_events.is_empty = true
  · simp [hemp]
  · simp only [if_neg hemp]
    cases hhead : h.local_events.keysList.head? with
    | none => exact ⟨rfl, rfl⟩
    | some key =>
      simp only
      rcases hrem : h.local_events.remove key with ⟨evOpt, guard⟩
      have hq2 : guard.data = (removeAux h.local_events.data key).2 := by
        have := congrArg Prod.snd hrem
        simp only [EventQueue.remove] at this
        rw [← this]
      have hq1 : evOpt = (removeAux h.local_events.data key).1 := by
        have := congrArg Prod.fst hrem
        simp only [EventQueue.remove] at this
        rw [← this]
      cases evOpt with
      | none => exact ⟨rfl, rfl⟩
      | some ev =>
        simp only
        have hkd : aidEq key ev.dst = true := by
          have hlast : (eventsForL h.local_events.data key).getLast? = some ev := by
            rw [← removeAux_fst, ← hq1]
          exact eventsForL_keyedByDst hdst (mem_of_getLast?_event hlast)
        cases hown : firstOwner h.threads ev.dst with
        | some i =>
          have hb := firstOwner_bound hown
          have hod : (h.threads.getD i default).owns d = false := habs i hb.1
          have hnedst : aidEq ev.dst d = false := by
            cases hx : aidEq ev.dst d
            · rfl
            · exfalso
              have hcc : (h.threads.getD i default).owns ev.dst
                  = (h.threads.getD i default).owns d := by
                unfold ExecutorQueues.owns
                rw [containsKeyMap_congr hx, containsKeyMap_congr hx]
              rw [hcc, hod] at hb
              exact absurd hb.2.1 (by simp)
          have hnekey : aidEq key d = false := by
            cases hx : aidEq key d
            · rfl
            · exact absurd (aidEq_trans (aidEq_symm hkd) hx) (by simp [hnedst])
          constructor
          · have hloc :
                (MultiThreadHelper.distribute_event
                    { h with local_events := guard } ev).local_events = guard := by
              simp [MultiThreadHelper.distribute_event, distAux_some hown]
            rw [hloc]
            show eventsForL guard.data d = eventsForL h.local_events.data d
            rw [hq2]
            exact eventsForL_remove_ne hnekey h.local_events.data
          · have hthr :
                (MultiThreadHelper.distribute_event
                    { h with local_events := guard } ev).threads
                  = h.threads.set i (insertEventAt (h.threads.getD i default) ev) := by
              simp [MultiThreadHelper.distribute_event, distAux_some hown]
            rw [hthr]
            exact map_eventsFor_set_insert h.threads i ev d hnedst
        | none =>
          have hthr :
              (MultiThreadHelper.distribute_event
                  { h with local_events := guard } ev).threads = h.threads := by
            simp [MultiThreadHelper.distribute_event, distAux_none hown]
          have hloc :
              (MultiThreadHelper.distribute_event
                  { h with local_events := guard } ev).local_events
                = guard.insert ev.dst ev := by
            simp [MultiThreadHelper.distribute_event, distAux_none hown]
          refine ⟨?_, by rw [hthr]⟩
          rw [hloc]
          show eventsForL (insertAux guard.data ev.dst ev) d
              = eventsForL h.local_events.data d
          cases hx : aidEq key d with
          | false =>
            have hnedst : aidEq ev.dst d = false := by
              cases hy : aidEq ev.dst d
              · rfl
              · exact absurd (aidEq_trans hkd hy) (by simp [hx])
            rw [eventsForL_insert_ne hnedst, hq2,
              eventsForL_remove_ne hx]
          | true =>
            have hdd : aidEq ev.dst d = true := aidEq_trans (aidEq_symm hkd) hx
            rw [eventsForL_insert_eq hdd, hq2, eventsForL_remove_eq hx huniq]
            have hlast : (eventsForL h.local_events.data d).getLast? = some ev := by
              rw [← eventsForL_congr hx, ← removeAux_fst, ← hq1]
            exact dropLast_append_getLast hlast

def helperParkedEx : MultiThreadHelper :=
  ⟨[workerEmptyEx], [], [], EventQueue.new.insert dEx e1Ex, 0⟩

/-- C9 witness: one worker that owns nothing, one event parked for the unknown
destination `dEx`: after an iteration of the local drain, the event is still
waiting locally and the worker's event queue still holds nothing for `dEx`. -/
theorem C9_unmatched_event_stays_local_witness :
    helperParkedEx.handle_local_events.local_events.eventsFor dEx
        = helperParkedEx.local_events.eventsFor dEx
      ∧ helperParkedEx.handle_local_events.threads.map
            (fun t => t.event_queue.eventsFor dEx)
          = helperParkedEx.threads.map (fun t => t.event_queue.eventsFor dEx) :=
  C9_unmatched_event_stays_local helperParkedEx dEx rfl rfl
    (by
      intro j hj
      have hl : helperParkedEx.threads.length = 1 := rfl
      rw [hl] at hj
      have hj0 : j = 0 := by omega
      subst hj0
      rfl)

end ConstellationRust
